import Mathlib

/-!
Shallow embedding of the erela.js client library (daniquoll/erela.js):
the Queue container (src/unnamed/part_000, `class Queue extends Array`),
the per-guild Player (src/structures/Player.ts), the Node client
(src/structures/Node.ts), the Manager / node pool (src/structures/Manager.ts)
and the track resolver (src/structures/Utils.ts), together with theorems
about the behaviour the specification ascribes to them.

Conventions of the embedding:
* JavaScript `undefined` / `null` fields become `Option`.
* Methods that can `throw` return a `Bool` flag (or an `Except`) marking the
  throw; mutations performed before the throw are kept, as they are in JS.
* Asynchronous I/O (HTTP results, search results, `Math.random` draws) is
  passed in as an explicit argument, so every definition is executable.
-/

namespace Erela

/-- JavaScript `Array.prototype.splice(start, deleteCount, ...items)`:
a negative `start` counts from the end and is clamped at 0, a `start`
past the end is clamped to the length, and `deleteCount` is clamped to the
elements available.  Returns the new array and the removed elements. -/
def jsSplice {α : Type} (l : List α) (start : Int) (deleteCount : Nat)
    (items : List α) : List α × List α :=
  let len := l.length
  let s : Nat := if start < 0 then len - min len start.natAbs else min start.toNat len
  let d : Nat := min deleteCount (len - s)
  (l.take s ++ items ++ (l.drop s).drop d, (l.drop s).take d)

/-- The queue of `src/unnamed/part_000`: `class Queue extends Array` with the
two extra single-track slots.  The underlying array is `tracks`; `current`
and `previous` are not part of it. -/
structure Queue (α : Type) where
  tracks : List α
  current : Option α
  previous : Option α

/-- Getter `Queue.totalSize`: `this.length + (this.current ? 1 : 0)`. -/
def Queue.totalSize {α : Type} (q : Queue α) : Nat :=
  q.tracks.length + (if q.current.isSome then 1 else 0)

/-- Getter `Queue.size`: `this.length`. -/
def Queue.size {α : Type} (q : Queue α) : Nat :=
  q.tracks.length

/-- The validation performed by `TrackUtils.validate` on the argument of
`Queue.add`.  In the typed embedding every single track carries the track
marker, so a single track or a non-empty list always validates; an empty
array falls through `Array.isArray(x) && x.length` to the tag lookup on the
array object, which yields `undefined`, so it does not validate. -/
def addValidates {α : Type} : Sum α (List α) → Bool
  | Sum.inl _ => true
  | Sum.inr [] => false
  | Sum.inr (_ :: _) => true

/-- Method `Queue.add(track, offset?)`.  Returns the updated queue and a flag
that is `true` when the method threw a `RangeError`; mutations made before
the throw (taking `current` from the head of an array argument happens before
the offset bounds check) are kept, as they are on the JS object. -/
def Queue.add {α : Type} (q : Queue α) (track : Sum α (List α))
    (offset : Option Int) : Queue α × Bool :=
  if !addValidates track then (q, true)
  else
    match q.current, track with
    | none, Sum.inl t =>
      -- single track while no current: becomes current, method returns at once
      ({ q with current := some t }, false)
    | _, _ =>
      let q1 : Queue α :=
        match q.current, track with
        | none, Sum.inr ts => { q with current := ts.head? }
        | _, _ => q
      let items : List α :=
        match q.current, track with
        | none, Sum.inr ts => ts.tail
        | _, Sum.inl t => [t]
        | _, Sum.inr ts => ts
      match offset with
      | none => ({ q1 with tracks := q1.tracks ++ items }, false)
      | some off =>
        if off < 0 || off > (q1.tracks.length : Int) then (q1, true)
        else ({ q1 with tracks := (jsSplice q1.tracks off 0 items).1 }, false)

/-- Method `Queue.remove(startOrPosition = 0, end?)`. Returns the updated
queue, the removed tracks, and a flag that is `true` when a `RangeError`
was thrown (in which case nothing was mutated). -/
def Queue.remove {α : Type} (q : Queue α) (startOrPosition : Int)
    (stop : Option Int) : Queue α × List α × Bool :=
  match stop with
  | some e =>
    if startOrPosition ≥ e then (q, [], true)
    else if startOrPosition ≥ (q.tracks.length : Int) then (q, [], true)
    else
      let r := jsSplice q.tracks startOrPosition (e - startOrPosition).toNat []
      ({ q with tracks := r.1 }, r.2, false)
  | none =>
    let r := jsSplice q.tracks startOrPosition 1 []
    ({ q with tracks := r.1 }, r.2, false)

/-- Method `Queue.clear()`: `this.splice(0)` removes every element. -/
def Queue.clear {α : Type} (q : Queue α) : Queue α :=
  { q with tracks := [] }

/-- In-place swap of two positions of a list, the `[this[i], this[j]] =
[this[j], this[i]]` step of `Queue.shuffle`.  Out-of-range positions leave
the list unchanged (they cannot occur in the shuffle loop). -/
def listSwap {α : Type} (l : List α) (i j : Nat) : List α :=
  match l[i]?, l[j]? with
  | some a, some b => (l.set i b).set j a
  | _, _ => l

/-- The loop of `Queue.shuffle`: `for (let i = this.length - 1; i > 0; i--)`
swaps position `i` with position `j = Math.floor(Math.random() * (i + 1))`.
The random draws are passed in: `rand i % (i + 1)` plays the role of the
floored multiple of `Math.random()`, which lies in `[0, i]`. -/
def shuffleAux {α : Type} (rand : Nat → Nat) : List α → Nat → List α
  | l, 0 => l
  | l, Nat.succ i => shuffleAux rand (listSwap l (i + 1) (rand (i + 1) % (i + 2))) i

/-- Method `Queue.shuffle()` on the underlying array, as a function of the
sequence of random draws. -/
def Queue.shuffle {α : Type} (rand : Nat → Nat) (l : List α) : List α :=
  shuffleAux rand l (l.length - 1)

/-- The fields of a built track that `Queue.unshuffle` inspects:
`buildedAt` (the creation timestamp `Date.now()` recorded by
`TrackUtils.build`), `identifier` and `title`.  An absent identifier is the
empty string, which is falsy in `a.identifier || a.title`. -/
structure STrack where
  buildedAt : Nat
  identifier : String
  title : String
deriving DecidableEq, Repr

/-- The expression `a.identifier || a.title` of the unshuffle comparator. -/
def STrack.idOrTitle (t : STrack) : String :=
  if t.identifier = "" then t.title else t.identifier

/-- The comparator of `Queue.unshuffle` as a `Bool` order: `compare(a, b) <= 0`
holds when `a.buildedAt < b.buildedAt`, or the timestamps tie and
`(a.identifier || a.title).localeCompare(b.identifier || b.title) <= 0`
(string comparison is modelled by the code-point order on strings). -/
def unshuffleLe (a b : STrack) : Bool :=
  if a.buildedAt = b.buildedAt then decide (a.idOrTitle ≤ b.idOrTitle)
  else decide (a.buildedAt < b.buildedAt)

/-- Method `Queue.unshuffle()`: `this.sort(comparator)` on the underlying
array, modelled as a sort by the comparator order. -/
def Queue.unshuffle (l : List STrack) : List STrack :=
  l.mergeSort unshuffleLe

/-! Player session state (src/structures/Player.ts) as far as the node event
dispatch and the repeat setters touch it. -/

/-- The mutable per-guild session fields read and written by
`Node.trackEnd`/`Node.queueEnd` and by the repeat setters of `Player`. -/
structure Session (α : Type) where
  queue : Queue α
  trackRepeat : Bool
  queueRepeat : Bool
  playing : Bool
  paused : Bool

/-- Method `Player.setTrackRepeat(repeat)`: sets `trackRepeat` and
unconditionally clears `queueRepeat`. -/
def Player.setTrackRepeat {α : Type} (p : Session α) (repeat_ : Bool) : Session α :=
  { p with trackRepeat := repeat_, queueRepeat := false }

/-- Method `Player.setQueueRepeat(repeat)`: sets `queueRepeat` and
unconditionally clears `trackRepeat`. -/
def Player.setQueueRepeat {α : Type} (p : Session α) (repeat_ : Bool) : Session α :=
  { p with queueRepeat := repeat_, trackRepeat := false }

/-- A call to one of the two repeat setters. -/
inductive RepeatCall where
  | track (repeat_ : Bool)
  | queue (repeat_ : Bool)

/-- Applies a sequence of repeat setter calls to a session. -/
def runRepeatCalls {α : Type} (p : Session α) (calls : List RepeatCall) : Session α :=
  calls.foldl
    (fun st c =>
      match c with
      | RepeatCall.track b => Player.setTrackRepeat st b
      | RepeatCall.queue b => Player.setQueueRepeat st b)
    p

/-! Node event dispatch (src/structures/Node.ts). -/

/-- The `TrackEndReason` type declared in src/structures/Node.ts line 664. -/
inductive TrackEndReason where
  | finished
  | loadFailed
  | stopped
  | replaced
  | cleanup
deriving DecidableEq

/-- The wire string carried in `payload.reason`, exactly the string-literal
union that `TrackEndReason` declares. -/
def TrackEndReason.str : TrackEndReason → String
  | TrackEndReason.finished => "finished"
  | TrackEndReason.loadFailed => "loadFailed"
  | TrackEndReason.stopped => "stopped"
  | TrackEndReason.replaced => "replaced"
  | TrackEndReason.cleanup => "cleanup"

/-- Notifications the track-end handling emits on the manager. -/
inductive SEvent where
  | trackEnd
  | queueEnd
deriving DecidableEq, Repr

/-- Method `Node.queueEnd`: clears `current`, marks the session not playing
and emits `"queueEnd"`.  The last component is the autoplay flag (no play is
issued here). -/
def Node.queueEnd {α : Type} (p : Session α) : Session α × List SEvent × Bool :=
  ({ p with queue := { p.queue with current := none }, playing := false },
   [SEvent.queueEnd], false)

/-- The `previous←current; current←queue.shift()` advance used by several
branches of `Node.trackEnd`. -/
def Queue.advance {α : Type} (q : Queue α) : Queue α :=
  { q with previous := q.current, current := q.tracks.head?, tracks := q.tracks.tail }

/-- Method `Node.trackEnd(player, track, payload)`, for an event carrying
`reason`, on a session whose state is `p` (the `track` argument is
`player.queue.current` at dispatch time).  `autoPlay` is
`this.manager.options.autoPlay`.  Returns the session after the handler, the
notifications emitted, and whether `player.play()` was issued. -/
def Node.trackEnd {α : Type} (autoPlay : Bool) (p : Session α)
    (reason : TrackEndReason) : Session α × List SEvent × Bool :=
  let track := p.queue.current
  -- if (['LOAD_FAILED', 'CLEAN_UP'].includes(payload.reason))
  if ["LOAD_FAILED", "CLEAN_UP"].contains reason.str then
    let p1 := { p with queue := Queue.advance p.queue }
    if p1.queue.current.isNone then Node.queueEnd p1
    else (p1, [SEvent.trackEnd], autoPlay)
  -- if (payload.reason === 'replaced')
  else if reason.str == "replaced" then
    (p, [SEvent.trackEnd], false)
  -- if (track && player.trackRepeat)
  else if track.isSome && p.trackRepeat then
    let p1 :=
      if reason.str == "stopped" then { p with queue := Queue.advance p.queue } else p
    if p1.queue.current.isNone then Node.queueEnd p1
    else (p1, [SEvent.trackEnd], autoPlay)
  -- if (track && player.queueRepeat)
  else if track.isSome && p.queueRepeat then
    let p1 := { p with queue := { p.queue with previous := p.queue.current } }
    if reason.str == "stopped" then
      let p2 := { p1 with queue :=
        { p1.queue with current := p1.queue.tracks.head?, tracks := p1.queue.tracks.tail } }
      if p2.queue.current.isNone then Node.queueEnd p2
      else (p2, [SEvent.trackEnd], autoPlay)
    else
      -- player.queue.add(player.queue.current); player.queue.current = player.queue.shift()
      let q2 :=
        match p1.queue.current with
        | some c => (Queue.add p1.queue (Sum.inl c) none).1
        | none => p1.queue
      let q3 := { q2 with current := q2.tracks.head?, tracks := q2.tracks.tail }
      ({ p1 with queue := q3 }, [SEvent.trackEnd], autoPlay)
  -- if (player.queue.length)
  else if p.queue.tracks.length ≠ 0 then
    ({ p with queue := Queue.advance p.queue }, [SEvent.trackEnd], autoPlay)
  -- if (!player.queue.length) return this.queueEnd(...)
  else Node.queueEnd p

/-! Node connection lifecycle (src/structures/Node.ts). -/

/-- Host-observable node lifecycle notifications. -/
inductive NEvent where
  | nodeError
  | nodeDestroy
  | nodeReconnect
  | playerDestroy (guildId : String)
deriving DecidableEq, Repr

/-- The node state read and written by `Node.destroy` and the reconnect timer
callback: `connected` is `socket?.readyState === WebSocket.OPEN`,
`boundPlayers` the guild ids of the players bound to this node, `inPool`
whether `manager.nodes` still holds the node under its identifier. -/
structure NodeState where
  connected : Bool
  reconnectAttempts : Nat
  boundPlayers : List String
  inPool : Bool
deriving DecidableEq, Repr

/-- Method `Node.destroy()`: `if (!this.connected) return` — when the socket
is not open the method does nothing at all.  Otherwise it destroys every
bound player, closes the socket, resets the attempt counter, emits
`nodeDestroy` and removes the node from the pool (the nested second call of
`destroy` made by `manager.destroyNode` returns at the guard, since the
socket was already set to null). -/
def Node.destroy (n : NodeState) : NodeState × List NEvent :=
  if !n.connected then (n, [])
  else
    ({ connected := false, reconnectAttempts := 1, boundPlayers := [], inPool := false },
     n.boundPlayers.map NEvent.playerDestroy ++ [NEvent.nodeDestroy])

/-- The body of the timer scheduled by `Node.reconnect()`, with
`retryAmount` from the node options.  When the attempt counter has reached
`retryAmount` it emits a fatal `nodeError` and calls `this.destroy()`;
otherwise it discards the old socket, emits `nodeReconnect`, opens a new
socket (not yet connected) and increments the counter. -/
def Node.reconnectFire (retryAmount : Nat) (n : NodeState) : NodeState × List NEvent :=
  if n.reconnectAttempts ≥ retryAmount then
    let r := Node.destroy n
    (r.1, NEvent.nodeError :: r.2)
  else
    ({ n with reconnectAttempts := n.reconnectAttempts + 1 }, [NEvent.nodeReconnect])

/-- The outcome of `await this.http.request(options)` together with the body
parse: the request itself may reject, or complete with a body that parses to
a JSON value or fails to parse (undici resolves the promise for every HTTP
status code). -/
inductive RestOutcome (β : Type) where
  | failed
  | completed (body : Option β)

/-- Method `Node.makeRequest(endpoint, modify)` restricted to the call
counter and the returned value: `this.calls++` runs after
`await this.http.request(options)`, so a rejected request leaves the counter
untouched and rethrows; a completed request increments it and returns the
parsed body, or `null` when the body fails to parse. -/
def Node.makeRequest {β : Type} (calls : Nat) (outcome : RestOutcome β) :
    Nat × Except Unit (Option β) :=
  match outcome with
  | RestOutcome.failed => (calls, Except.error ())
  | RestOutcome.completed body => (calls + 1, Except.ok body)

/-! Voice credential routing (Manager.updateVoiceState, src/structures/Manager.ts). -/

/-- The incrementally assembled `player.voiceState` record.  A field is
`none` exactly when its key is not yet present on the object (the push guard
tests `key in player.voiceState`). -/
structure VoiceCreds where
  token : Option String
  endpoint : Option String
  sessionId : Option String
deriving DecidableEq, Repr

/-- Whether all three credential fields are present. -/
def VoiceCreds.complete (v : VoiceCreds) : Bool :=
  v.token.isSome && v.endpoint.isSome && v.sessionId.isSome

/-- The player fields `Manager.updateVoiceState` reads and writes.  The
`pause(true)` issued on disconnect only touches the paused flag and sends a
non-voice REST call, so it is not part of the credential push being
verified. -/
structure MPlayer where
  guildId : String
  voiceState : VoiceCreds
  voiceChannelId : Option String
deriving DecidableEq, Repr

/-- An inbound gateway packet as `updateVoiceState` discriminates it: a
`VOICE_SERVER_UPDATE` carries token and endpoint, a `VOICE_STATE_UPDATE`
carries the user, session id and (possibly null) channel id, and any other
`t` is dropped at the first guard. -/
inductive VoicePacket where
  | voiceServer (guild_id token endpoint : String)
  | voiceState (guild_id user_id session_id : String) (channel_id : Option String)
  | otherEvent
deriving DecidableEq, Repr

/-- Notifications `updateVoiceState` emits on the manager. -/
inductive VEvent where
  | playerMove
  | playerDisconnect
deriving DecidableEq, Repr

/-- Method `Manager.updateVoiceState(data)` acting on the player of the
packet's guild (`none` when `this.players` has no player for it).  Returns
the updated player, whether the voice credentials were pushed to the bound
node's `updatePlayer` call, and the emitted notifications. -/
def Manager.updateVoiceState (clientId : String) (player : Option MPlayer)
    (data : VoicePacket) : Option MPlayer × Bool × List VEvent :=
  match data with
  | VoicePacket.otherEvent => (player, false, [])
  | VoicePacket.voiceServer g tok ep =>
    match player with
    | none => (none, false, [])
    | some pl =>
      if pl.guildId ≠ g then (some pl, false, [])
      else
        let pl1 := { pl with voiceState :=
          { pl.voiceState with token := some tok, endpoint := some ep } }
        (some pl1, pl1.voiceState.complete, [])
  | VoicePacket.voiceState g uid sid ch =>
    match player with
    | none => (none, false, [])
    | some pl =>
      if pl.guildId ≠ g then (some pl, false, [])
      else if uid ≠ clientId then (some pl, false, [])
      else
        match ch with
        | some c =>
          let evs := if pl.voiceChannelId ≠ some c then [VEvent.playerMove] else []
          let pl1 := { pl with
            voiceState := { pl.voiceState with sessionId := some sid },
            voiceChannelId := some c }
          (some pl1, pl1.voiceState.complete, evs)
        | none =>
          -- player got disconnected: voiceState is reset to an empty object
          let pl1 := { pl with
            voiceChannelId := none,
            voiceState := { token := none, endpoint := none, sessionId := none } }
          (some pl1, pl1.voiceState.complete, [VEvent.playerDisconnect])

/-- Whether a packet reaches the mutation body of `updateVoiceState`
(no early return fires): the packet kind is one of the two voice updates,
a player exists for its guild, and a voice-state update names the bot's own
user id. -/
def VoicePacket.appliesTo (clientId : String) (player : Option MPlayer) :
    VoicePacket → Bool
  | VoicePacket.otherEvent => false
  | VoicePacket.voiceServer g _ _ =>
    match player with
    | some pl => pl.guildId == g
    | none => false
  | VoicePacket.voiceState g uid _ _ =>
    match player with
    | some pl => pl.guildId == g && uid == clientId
    | none => false

/-! Track resolution (TrackUtils.getClosestTrack, src/structures/Utils.ts,
v4 variant). -/

/-- The fields of a search-result track that `getClosestTrack` inspects. -/
structure RTrack where
  author : String
  title : String
  duration : Int
deriving DecidableEq, Repr

/-- An unresolved track: required title, optional author and duration hints.
A present-but-empty author string is falsy in `if (unresolvedTrack.author)`,
as is a zero duration in `if (unresolvedTrack.duration)`. -/
structure UTrack where
  title : String
  author : Option String
  duration : Option Int
deriving DecidableEq, Repr

/-- ASCII lower-casing of one character, `A`–`Z` mapping to `a`–`z`. -/
def charLower (c : Char) : Char :=
  if 65 ≤ c.toNat ∧ c.toNat ≤ 90 then Char.ofNat (c.toNat + 32) else c

/-- ASCII lower-casing of a string. -/
def strLower (s : String) : String :=
  String.mk (s.data.map charLower)

/-- The anchored case-insensitive regular expression match
`new RegExp("^" + escapeRegExp(name) + "$", "i").test(s)`: the pattern is a
literal, so the test is case-insensitive string equality (case folding
modelled on the ASCII range). -/
def iEq (s name : String) : Bool :=
  strLower s == strLower name

/-- The exception value `res.exception ?? { message: "No tracks found." }`
thrown when the search outcome is not a search-result list. -/
structure ResolveError where
  message : String
deriving DecidableEq, Repr

/-- The loadType discriminator of a search outcome. -/
inductive LoadKind where
  | track
  | playlist
  | search
  | empty
  | error
deriving DecidableEq, Repr

/-- The search outcome `getClosestTrack` receives from `manager.search`. -/
structure SearchRes where
  loadType : LoadKind
  tracks : List RTrack
  exception : Option ResolveError
deriving DecidableEq, Repr

/-- Function `TrackUtils.getClosestTrack(unresolvedTrack)`, with the search
outcome passed in.  Throws (`Except.error`) when the outcome is not a
search-result list; otherwise tries, in order, the author/title match, the
duration window, and the first result (`res.tracks[0]`, which is `undefined`
— `Except.ok none` — for an empty list). -/
def TrackUtils.getClosestTrack (u : UTrack) (res : SearchRes) :
    Except ResolveError (Option RTrack) :=
  if res.loadType ≠ LoadKind.search then
    Except.error (res.exception.getD { message := "No tracks found." })
  else
    let authorPick : Option RTrack :=
      match u.author with
      | some a =>
        if a == "" then none
        else
          res.tracks.find? (fun t =>
            (iEq t.author a || iEq t.author (a ++ " - Topic")) || iEq t.title u.title)
      | none => none
    match authorPick with
    | some t => Except.ok (some t)
    | none =>
      let durationPick : Option RTrack :=
        match u.duration with
        | some d =>
          if d == 0 then none
          else res.tracks.find? (fun t => t.duration ≥ d - 1500 && t.duration ≤ d + 1500)
        | none => none
      match durationPick with
      | some t => Except.ok (some t)
      | none => Except.ok res.tracks.head?

/-! Player.play (src/structures/Player.ts). -/

/-- A queue entry as `Player.play` distinguishes it: a resolved track
carrying its base64 `track` payload, or an unresolved one (detected by
`TrackUtils.isUnresolvedTrack`) named by its search title. -/
inductive PTrack where
  | resolved (encoded : String)
  | unresolvedBy (title : String)
deriving DecidableEq, Repr

/-- The `TrackUtils.isUnresolvedTrack` marker test. -/
def PTrack.isUnresolved : PTrack → Bool
  | PTrack.resolved _ => false
  | PTrack.unresolvedBy _ => true

/-- The encoded payload `this.queue.current.track` sent in the remote play
command (an unresolved entry has no such field). -/
def PTrack.encodedOf : PTrack → Option String
  | PTrack.resolved e => some e
  | PTrack.unresolvedBy _ => none

/-- Ways `Player.play` can fail to return normally. -/
inductive PlayErr where
  | noCurrentTrack
  | outOfFuel
deriving DecidableEq, Repr

/-- Notification emitted on the resolution-failure path. -/
inductive PlayEv where
  | trackError
deriving DecidableEq, Repr

/-- Method `Player.play(optionsOrTrack?)` restricted to the queue slots and
the remote command (play options are opaque to the claims).  `resolveFn`
stands for `TrackUtils.getClosestTrack` on the current unresolved track,
`none` meaning the resolution threw.  The result carries the queue after the
call, the notifications emitted, and the encoded track of the issued remote
play command (`none` when the call returned without issuing one).  The
source recursion `return this.play(this.queue[0])` is bounded by explicit
fuel; the claims instantiate it deep enough. -/
def Player.play (resolveFn : PTrack → Option PTrack) :
    Nat → Queue PTrack → Option PTrack →
    Except PlayErr (Queue PTrack × List PlayEv × Option String)
  | 0, _, _ => Except.error PlayErr.outOfFuel
  | Nat.succ fuel, q, arg =>
    -- if (typeof optionsOrTrack !== 'undefined' && TrackUtils.validate(optionsOrTrack))
    let q1 :=
      match arg with
      | some t =>
        { q with
          previous := if q.current.isSome then q.current else q.previous,
          current := some t }
      | none => q
    match q1.current with
    | none => Except.error PlayErr.noCurrentTrack
    | some cur =>
      if cur.isUnresolved then
        match resolveFn cur with
        | some r =>
          let q2 := { q1 with current := some r }
          Except.ok (q2, [], r.encodedOf)
        | none =>
          -- emit trackError; if (this.queue[0]) return this.play(this.queue[0])
          match q1.tracks.head? with
          | some t0 =>
            match Player.play resolveFn fuel q1 (some t0) with
            | Except.ok (q2, evs, cmd) => Except.ok (q2, PlayEv.trackError :: evs, cmd)
            | Except.error e => Except.error e
          | none => Except.ok (q1, [PlayEv.trackError], none)
      else Except.ok (q1, [], cur.encodedOf)

/-! Sequences of Queue.add / Queue.remove operations, for the queue
invariant. -/

/-- One call of `Queue.add` or `Queue.remove`. -/
inductive QOp (α : Type) where
  | add (track : Sum α (List α)) (offset : Option Int)
  | removeAt (position : Int)
  | removeRange (start stop : Int)

/-- The state after one queue call (a call that throws keeps the mutations
it made before throwing, as the JS object does). -/
def applyQOp {α : Type} (q : Queue α) : QOp α → Queue α
  | QOp.add t off => (Queue.add q t off).1
  | QOp.removeAt p => (Queue.remove q p none).1
  | QOp.removeRange s e => (Queue.remove q s (some e)).1

/-- The tracks a call of `Queue.add` supplies. -/
def addInput {α : Type} : Sum α (List α) → List α
  | Sum.inl t => [t]
  | Sum.inr ts => ts

/-- The tracks an operation supplies to the queue. -/
def QOp.added {α : Type} : QOp α → List α
  | QOp.add t _ => addInput t
  | _ => []

/-- All tracks supplied across a sequence of operations, in order. -/
def addedTracks {α : Type} (ops : List (QOp α)) : List α :=
  (ops.map QOp.added).flatten

/-- The empty queue a fresh `Player` starts with. -/
def emptyQueue (α : Type) : Queue α :=
  { tracks := [], current := none, previous := none }

/-- Runs a sequence of queue calls from a given queue. -/
def runQOpsFrom {α : Type} (q : Queue α) (ops : List (QOp α)) : Queue α :=
  ops.foldl applyQOp q

/-- Runs a sequence of queue calls from the empty queue. -/
def runQOps {α : Type} (ops : List (QOp α)) : Queue α :=
  runQOpsFrom (emptyQueue α) ops

/-! Theorems. -/

/-- Claim C6: for every player and every sequence of `setTrackRepeat` and
`setQueueRepeat` calls, the `trackRepeat` and `queueRepeat` flags are never
simultaneously true (each setter clears the other flag), starting from any
state in which they are not both true — in particular from the initial
player state, where both are false. -/
theorem c6_repeat_flags_mutually_exclusive {α : Type} (p : Session α)
    (calls : List RepeatCall)
    (h : (p.trackRepeat && p.queueRepeat) = false) :
    ((runRepeatCalls p calls).trackRepeat && (runRepeatCalls p calls).queueRepeat) = false := by
  induction calls generalizing p with
  | nil => exact h
  | cons c rest ih =>
    cases c with
    | track b =>
      exact ih (Player.setTrackRepeat p b) (by simp [Player.setTrackRepeat])
    | queue b =>
      exact ih (Player.setQueueRepeat p b) (by simp [Player.setQueueRepeat])

/-- Witness for C6 at a concrete player and call sequence. -/
theorem c6_repeat_flags_witness :
    ((runRepeatCalls
        { queue := emptyQueue Nat, trackRepeat := false, queueRepeat := false,
          playing := false, paused := false }
        [RepeatCall.track true, RepeatCall.queue true, RepeatCall.track false]).trackRepeat &&
      (runRepeatCalls
        { queue := emptyQueue Nat, trackRepeat := false, queueRepeat := false,
          playing := false, paused := false }
        [RepeatCall.track true, RepeatCall.queue true, RepeatCall.track false]).queueRepeat) = false :=
  c6_repeat_flags_mutually_exclusive _ _ (by decide)

/-- Claim C4: a player with `current = C`, `queue = [A, B]`, both repeat
flags false, receiving a `TrackEndEvent` with reason `finished`, ends with
`current = A`, `previous = C`, `queue = [B]`, a `"trackEnd"` notification,
and `player.play()` issued exactly when autoplay is enabled (the issued play
acts on the new `current`, which is `A`). -/
theorem c4_finished_advances_queue {α : Type} (A B C : α) (prev : Option α)
    (pl pa ap : Bool) :
    Node.trackEnd ap
      { queue := { tracks := [A, B], current := some C, previous := prev },
        trackRepeat := false, queueRepeat := false, playing := pl, paused := pa }
      TrackEndReason.finished =
    ({ queue := { tracks := [B], current := some A, previous := some C },
       trackRepeat := false, queueRepeat := false, playing := pl, paused := pa },
     [SEvent.trackEnd], ap) := by
  rfl

/-- Claim C1 (code bug): the branch of `Node.trackEnd` meant to handle
load-failed and cleanup reasons tests
`['LOAD_FAILED', 'CLEAN_UP'].includes(payload.reason)`, but neither string
is a value of the `TrackEndReason` type the same file declares
(`'finished' | 'loadFailed' | 'stopped' | 'replaced' | 'cleanup'`), so the
branch is dead for every declared reason.  At the failing input — reason
`loadFailed`, `trackRepeat` set, `current = C` (0), `queue = [A]` (1) — the
handler falls through to the track-repeat branch and leaves `current = C`
and `previous` untouched, replaying the failed track, where the claim says
`previous ← C`, `current ← A`. -/
theorem c1_loadFailed_branch_dead :
    (∀ r : TrackEndReason, (["LOAD_FAILED", "CLEAN_UP"].contains r.str) = false) ∧
    Node.trackEnd true
      { queue := { tracks := [1], current := some 0, previous := none },
        trackRepeat := true, queueRepeat := false, playing := true, paused := false }
      TrackEndReason.loadFailed =
    ({ queue := { tracks := [(1 : Nat)], current := some 0, previous := none },
       trackRepeat := true, queueRepeat := false, playing := true, paused := false },
     [SEvent.trackEnd], true) := by
  refine ⟨fun r => ?_, rfl⟩
  cases r <;> rfl

/-- Claim C2 (code bug): `Node.destroy()` begins with
`if (!this.connected) return`, and when the reconnect timer fires the socket
is closed, so at reconnect exhaustion the `this.destroy()` call made after
emitting the fatal `nodeError` does nothing: for every disconnected node
state, `destroy` is the identity and emits nothing; concretely, with
`retryAmount = 5`, five attempts used, one bound player and the node in the
pool, the timer callback emits only `nodeError` and leaves the player bound
and the node in the pool, where the claim says every bound player is
destroyed and the node is removed. -/
theorem c2_reconnect_exhaustion_no_destroy :
    (∀ (attempts : Nat) (players : List String) (pool : Bool),
      Node.destroy
        { connected := false, reconnectAttempts := attempts,
          boundPlayers := players, inPool := pool } =
      ({ connected := false, reconnectAttempts := attempts,
         boundPlayers := players, inPool := pool }, [])) ∧
    Node.reconnectFire 5
      { connected := false, reconnectAttempts := 5,
        boundPlayers := ["guild1"], inPool := true } =
    ({ connected := false, reconnectAttempts := 5,
       boundPlayers := ["guild1"], inPool := true },
     [NEvent.nodeError]) := by
  exact ⟨fun attempts players pool => rfl, rfl⟩

/-- Counterexample to claim C8: a REST call whose underlying HTTP request
rejects does not increment the call counter — starting from 0 calls, a
failed request leaves the counter at 0, not 1. -/
theorem c8_failed_call_not_counted :
    (Node.makeRequest 0 (RestOutcome.failed : RestOutcome Nat)).1 ≠ 0 + 1 := by
  decide

/-- Claim C8 as amended: the counter is incremented by one exactly when the
underlying HTTP request completes (with any status, and even when the
response body fails to parse as JSON, in which case `null` is returned);
when the request itself rejects, the error is rethrown and the counter is
unchanged. -/
theorem c8_calls_counted_iff_completed {β : Type} (calls : Nat) (outcome : RestOutcome β) :
    (Node.makeRequest calls outcome).1 =
      calls + (match outcome with
               | RestOutcome.failed => 0
               | RestOutcome.completed _ => 1) := by
  cases outcome <;> rfl

/-- Claim C3: for every player state and inbound voice packet, the voice
credentials are pushed to the bound node's update-player call exactly when
the packet is actually applied to the player (right kind, matching guild,
and for a voice-state packet the bot's own user id) and, after it is
applied, all three of token, endpoint and session id are present.  In
particular the push never fires while any of the three fields is absent,
and over any packet sequence each application that (re-)completes the
triple pushes exactly once. -/
theorem c3_voice_push_iff_complete (clientId : String) (player : Option MPlayer)
    (d : VoicePacket) :
    (Manager.updateVoiceState clientId player d).2.1 =
      (VoicePacket.appliesTo clientId player d &&
       (match (Manager.updateVoiceState clientId player d).1 with
        | some pl => pl.voiceState.complete
        | none => false)) := by
  cases d with
  | otherEvent =>
    cases player <;> simp [Manager.updateVoiceState, VoicePacket.appliesTo]
  | voiceServer g tok ep =>
    cases player with
    | none => simp [Manager.updateVoiceState, VoicePacket.appliesTo]
    | some pl =>
      by_cases h : pl.guildId = g
      · simp [Manager.updateVoiceState, VoicePacket.appliesTo, h]
      · simp [Manager.updateVoiceState, VoicePacket.appliesTo, h]
  | voiceState g uid sid ch =>
    cases player with
    | none => simp [Manager.updateVoiceState, VoicePacket.appliesTo]
    | some pl =>
      by_cases h : pl.guildId = g
      · by_cases h2 : uid = clientId
        · cases ch <;>
            simp [Manager.updateVoiceState, VoicePacket.appliesTo, h, h2, VoiceCreds.complete]
        · cases ch <;>
            simp [Manager.updateVoiceState, VoicePacket.appliesTo, h, h2]
      · cases ch <;> simp [Manager.updateVoiceState, VoicePacket.appliesTo, h]

/-- Counterexample to claim C7: the selection predicate of
`getClosestTrack` also accepts a track whose title case-insensitively
matches the unresolved title, and `find` takes the first acceptable track.
For the unresolved track `{ title: "X", author: "Y" }` and the result list
`[{ author: "Z", title: "x" }, { author: "Y", title: "W" }]`, the list
contains a track whose author exactly matches "Y", yet resolution selects
the earlier track by "Z" (whose title "x" matches "X"), not the
author-matching one. -/
theorem c7_author_match_shadowed :
    TrackUtils.getClosestTrack { title := "X", author := some "Y", duration := none }
      { loadType := LoadKind.search,
        tracks := [{ author := "Z", title := "x", duration := 5 },
                   { author := "Y", title := "W", duration := 7 }],
        exception := none } =
      Except.ok (some { author := "Z", title := "x", duration := 5 }) ∧
    iEq ({ author := "Y", title := "W", duration := 7 } : RTrack).author "Y" = true ∧
    iEq ({ author := "Z", title := "x", duration := 5 } : RTrack).author "Y" = false ∧
    iEq ({ author := "Z", title := "x", duration := 5 } : RTrack).author "Y - Topic" = false := by
  exact ⟨rfl, rfl, rfl, rfl⟩

/-- Claim C7 as amended: with an author hint `Y`, `resolve()` selects the
first track of the result list whose author case-insensitively matches `Y`
or `Y - Topic` — or whose title case-insensitively matches the unresolved
title; so a track whose author matches is selected regardless of its
position provided no earlier track matches the author-or-title
disjunction. -/
theorem c7_amended_first_disjunct_match (u : UTrack) (a : String)
    (pre post : List RTrack) (t : RTrack) (exc : Option ResolveError)
    (ha : u.author = some a) (hne : (a == "") = false)
    (hpre : ∀ t2 ∈ pre,
      ((iEq t2.author a || iEq t2.author (a ++ " - Topic")) || iEq t2.title u.title) = false)
    (ht : (iEq t.author a || iEq t.author (a ++ " - Topic")) = true) :
    TrackUtils.getClosestTrack u
      { loadType := LoadKind.search, tracks := pre ++ t :: post, exception := exc } =
      Except.ok (some t) := by
  have hfindpre :
      pre.find? (fun t2 =>
        (iEq t2.author a || iEq t2.author (a ++ " - Topic")) || iEq t2.title u.title) = none :=
    List.find?_eq_none.mpr (fun x hx => by simp [hpre x hx])
  have hfind :
      (pre ++ t :: post).find? (fun t2 =>
        (iEq t2.author a || iEq t2.author (a ++ " - Topic")) || iEq t2.title u.title) = some t := by
    rw [List.find?_append, hfindpre]
    simp [List.find?_cons, ht]
  simp [TrackUtils.getClosestTrack, ha, hne, hfind]

/-- Witness for the amended C7 at a concrete unresolved track and result
list: the author-matching track sits behind a non-matching track and is
still selected. -/
theorem c7_amended_witness :
    TrackUtils.getClosestTrack { title := "X", author := some "Y", duration := none }
      { loadType := LoadKind.search,
        tracks := [{ author := "A", title := "B", duration := 1 }] ++
          ({ author := "y", title := "W", duration := 2 } : RTrack) :: [],
        exception := none } =
      Except.ok (some { author := "y", title := "W", duration := 2 }) :=
  c7_amended_first_disjunct_match
    { title := "X", author := some "Y", duration := none } "Y"
    [{ author := "A", title := "B", duration := 1 }]
    [] { author := "y", title := "W", duration := 2 } none
    rfl rfl (by decide) rfl

/-- Claim C10: when `play()` fails to resolve an unresolved current track
and the queue is non-empty, it emits a track-error and recursively plays
the element at index 0 of the queue without removing it: afterwards that
track is both the `current` slot and still the first element of the queue
(the sequence is unchanged, so its length too), the old unresolved current
moves to `previous`, and the remote play command carries the recovered
track's payload. -/
theorem c10_play_recovery_keeps_queue (resolveFn : PTrack → Option PTrack)
    (title enc : String) (rest : List PTrack) (prev : Option PTrack)
    (hres : resolveFn (PTrack.unresolvedBy title) = none) :
    Player.play resolveFn 2
      { tracks := PTrack.resolved enc :: rest,
        current := some (PTrack.unresolvedBy title), previous := prev } none =
      Except.ok
        ({ tracks := PTrack.resolved enc :: rest,
           current := some (PTrack.resolved enc),
           previous := some (PTrack.unresolvedBy title) },
         [PlayEv.trackError], some enc) := by
  simp [Player.play, hres, PTrack.isUnresolved, PTrack.encodedOf]

/-- Witness for C10 at a concrete queue and failing resolver. -/
theorem c10_play_recovery_witness :
    Player.play (fun _ => none) 2
      { tracks := [PTrack.resolved "enc", PTrack.unresolvedBy "later"],
        current := some (PTrack.unresolvedBy "want"), previous := none } none =
      Except.ok
        ({ tracks := [PTrack.resolved "enc", PTrack.unresolvedBy "later"],
           current := some (PTrack.resolved "enc"),
           previous := some (PTrack.unresolvedBy "want") },
         [PlayEv.trackError], some "enc") :=
  c10_play_recovery_keeps_queue (fun _ => none) "want" "enc"
    [PTrack.unresolvedBy "later"] none rfl

/-! Supporting lemmas for the queue invariant (C5). -/

/-- The invariant of claim C5: the sequence never contains the current
track. -/
def QInv {α : Type} (q : Queue α) : Prop :=
  ∀ c, q.current = some c → c ∉ q.tracks

/-- Membership after a pure insertion splice comes from the original list or
from the inserted items. -/
theorem mem_of_mem_jsSplice_insert {α : Type} {l items : List α} {s : Int} {y : α}
    (h : y ∈ (jsSplice l s 0 items).1) : y ∈ l ∨ y ∈ items := by
  simp only [jsSplice, List.mem_append] at h
  obtain (h | h) | h := h
  · exact Or.inl (List.take_subset _ _ h)
  · exact Or.inr h
  · exact Or.inl (List.drop_subset _ _ (List.drop_subset _ _ h))

/-- Membership after a pure removal splice comes from the original list. -/
theorem mem_of_mem_jsSplice_remove {α : Type} {l : List α} {s : Int} {d : Nat} {y : α}
    (h : y ∈ (jsSplice l s d []).1) : y ∈ l := by
  simp only [jsSplice, List.mem_append, List.not_mem_nil, or_false] at h
  obtain h | h := h
  · exact List.take_subset _ _ h
  · exact List.drop_subset _ _ (List.drop_subset _ _ h)

/-- One `Queue.add` call preserves the C5 invariant when its input tracks
are fresh, and its output tracks and current slot come from the old queue
or the input. -/
theorem add_step {α : Type} (q : Queue α) (t : Sum α (List α)) (off : Option Int)
    (hq : QInv q) (hnd : (addInput t).Nodup)
    (hT : ∀ y ∈ addInput t, y ∉ q.tracks)
    (hC : ∀ y ∈ addInput t, ∀ c, q.current = some c → y ≠ c) :
    QInv (Queue.add q t off).1 ∧
    (∀ y ∈ (Queue.add q t off).1.tracks, y ∈ q.tracks ∨ y ∈ addInput t) ∧
    (∀ c, (Queue.add q t off).1.current = some c → q.current = some c ∨ c ∈ addInput t) := by
  rcases t with x | ts
  · -- a single track argument
    have hx : x ∉ q.tracks := hT x (by simp [addInput])
    cases hc : q.current with
    | none =>
      have heq : Queue.add q (Sum.inl x) off = ({ q with current := some x }, false) := by
        simp [Queue.add, addValidates, hc]
      rw [heq]
      refine ⟨?_, fun y hy => Or.inl hy, ?_⟩
      · intro c h1 hmem
        simp only [Option.some.injEq] at h1
        subst h1
        exact hx hmem
      · intro c h1
        simp only [Option.some.injEq] at h1
        subst h1
        exact Or.inr (by simp [addInput])
    | some c0 =>
      have hxc : x ≠ c0 := hC x (by simp [addInput]) c0 hc
      have main : ∀ tr2 : List α,
          (∀ y ∈ tr2, y ∈ q.tracks ∨ y = x) →
          QInv { q with tracks := tr2 } ∧
          (∀ y ∈ tr2, y ∈ q.tracks ∨ y ∈ addInput (Sum.inl x)) ∧
          (∀ c, ({ q with tracks := tr2 } : Queue α).current = some c →
            some c0 = some c ∨ c ∈ addInput (Sum.inl x)) := by
        intro tr2 htr2
        refine ⟨?_, ?_, fun c h1 => Or.inl (hc ▸ h1)⟩
        · intro c h1 hmem
          rw [show ({ q with tracks := tr2 } : Queue α).current = q.current from rfl, hc] at h1
          simp only [Option.some.injEq] at h1
          rcases htr2 c hmem with h | h
          · exact hq c (hc.trans (congrArg some h1)) h
          · exact hxc (h.symm.trans h1.symm)
        · intro y hy
          exact (htr2 y hy).imp id (fun h => by simp [addInput, h])
      cases off with
      | none =>
        have heq : Queue.add q (Sum.inl x) none =
            ({ q with tracks := q.tracks ++ [x] }, false) := by
          simp [Queue.add, addValidates, hc]
        rw [heq]
        exact main (q.tracks ++ [x]) (fun y hy => by
          rcases List.mem_append.mp hy with h | h
          · exact Or.inl h
          · exact Or.inr (by simpa using h))
      | some o =>
        by_cases hb : o < 0 ∨ (q.tracks.length : Int) < o
        · have heq : Queue.add q (Sum.inl x) (some o) = (q, true) := by
            simp [Queue.add, addValidates, hc, hb]
          rw [heq]
          exact main q.tracks (fun y hy => Or.inl hy)
        · have heq : Queue.add q (Sum.inl x) (some o) =
              ({ q with tracks := (jsSplice q.tracks o 0 [x]).1 }, false) := by
            simp [Queue.add, addValidates, hc, hb]
          rw [heq]
          exact main _ (fun y hy =>
            (mem_of_mem_jsSplice_insert hy).imp id (fun h => by simpa using h))
  · -- an array argument
    cases ts with
    | nil =>
      -- fails validation, nothing happens
      have heq : Queue.add q (Sum.inr ([] : List α)) off = (q, true) := by
        simp [Queue.add, addValidates]
      rw [heq]
      exact ⟨hq, fun y hy => Or.inl hy, fun c h1 => Or.inl h1⟩
    | cons x xs =>
      have hx : x ∉ q.tracks := hT x (by simp [addInput])
      have hxs : x ∉ xs := by
        simp only [addInput, List.nodup_cons] at hnd
        exact hnd.1
      cases hc : q.current with
      | none =>
        have main : ∀ tr2 : List α,
            (∀ y ∈ tr2, y ∈ q.tracks ∨ y ∈ xs) →
            QInv { q with current := some x, tracks := tr2 } ∧
            (∀ y ∈ tr2, y ∈ q.tracks ∨ y ∈ addInput (Sum.inr (x :: xs))) ∧
            (∀ c, ({ q with current := some x, tracks := tr2 } : Queue α).current = some c →
              none = some c ∨ c ∈ addInput (Sum.inr (x :: xs))) := by
          intro tr2 htr2
          refine ⟨?_, ?_, ?_⟩
          · intro c h1 hmem
            simp only [Option.some.injEq] at h1
            rcases htr2 c hmem with h | h
            · exact hx (by rw [h1]; exact h)
            · exact hxs (by rw [h1]; exact h)
          · intro y hy
            refine (htr2 y hy).imp id (fun h => ?_)
            simp only [addInput, List.mem_cons]
            exact Or.inr h
          · intro c h1
            simp only [Option.some.injEq] at h1
            subst h1
            exact Or.inr (by simp [addInput])
        cases off with
        | none =>
          have heq : Queue.add q (Sum.inr (x :: xs)) none =
              ({ q with current := some x, tracks := q.tracks ++ xs }, false) := by
            simp [Queue.add, addValidates, hc]
          rw [heq]
          exact main _ (fun y hy => List.mem_append.mp hy)
        | some o =>
          by_cases hb : o < 0 ∨ (q.tracks.length : Int) < o
          · have heq : Queue.add q (Sum.inr (x :: xs)) (some o) =
                ({ q with current := some x }, true) := by
              simp [Queue.add, addValidates, hc, hb]
            rw [heq]
            exact main q.tracks (fun y hy => Or.inl hy)
          · have heq : Queue.add q (Sum.inr (x :: xs)) (some o) =
                ({ q with current := some x, tracks := (jsSplice q.tracks o 0 xs).1 }, false) := by
              simp [Queue.add, addValidates, hc, hb]
            rw [heq]
            exact main _ (fun y hy => mem_of_mem_jsSplice_insert hy)
      | some c0 =>
        have hall : ∀ y, y ∈ x :: xs → y ∉ q.tracks ∧ y ≠ c0 := by
          intro y hy
          exact ⟨hT y (by simpa [addInput] using hy), hC y (by simpa [addInput] using hy) c0 hc⟩
        have main : ∀ tr2 : List α,
            (∀ y ∈ tr2, y ∈ q.tracks ∨ y ∈ x :: xs) →
            QInv { q with tracks := tr2 } ∧
            (∀ y ∈ tr2, y ∈ q.tracks ∨ y ∈ addInput (Sum.inr (x :: xs))) ∧
            (∀ c, ({ q with tracks := tr2 } : Queue α).current = some c →
              some c0 = some c ∨ c ∈ addInput (Sum.inr (x :: xs))) := by
          intro tr2 htr2
          refine ⟨?_, ?_, fun c h1 => Or.inl (hc ▸ h1)⟩
          · intro c h1 hmem
            rw [show ({ q with tracks := tr2 } : Queue α).current = q.current from rfl, hc] at h1
            simp only [Option.some.injEq] at h1
            rcases htr2 c hmem with h | h
            · exact hq c (hc.trans (congrArg some h1)) h
            · exact (hall c h).2 h1.symm
          · intro y hy
            exact (htr2 y hy).imp id (fun h => by simpa [addInput] using h)
        cases off with
        | none =>
          have heq : Queue.add q (Sum.inr (x :: xs)) none =
              ({ q with tracks := q.tracks ++ (x :: xs) }, false) := by
            simp [Queue.add, addValidates, hc]
          rw [heq]
          exact main _ (fun y hy => List.mem_append.mp hy)
        | some o =>
          by_cases hb : o < 0 ∨ (q.tracks.length : Int) < o
          · have heq : Queue.add q (Sum.inr (x :: xs)) (some o) = (q, true) := by
              simp [Queue.add, addValidates, hc, hb]
            rw [heq]
            exact main q.tracks (fun y hy => Or.inl hy)
          · have heq : Queue.add q (Sum.inr (x :: xs)) (some o) =
                ({ q with tracks := (jsSplice q.tracks o 0 (x :: xs)).1 }, false) := by
              simp [Queue.add, addValidates, hc, hb]
            rw [heq]
            exact main _ (fun y hy => mem_of_mem_jsSplice_insert hy)

/-- One `Queue.remove` call only drops tracks from the sequence and never
touches the `current` slot. -/
theorem remove_step {α : Type} (q : Queue α) (s : Int) (stop : Option Int) :
    (∀ y ∈ (Queue.remove q s stop).1.tracks, y ∈ q.tracks) ∧
    (Queue.remove q s stop).1.current = q.current := by
  cases stop with
  | none =>
    exact ⟨fun y hy => mem_of_mem_jsSplice_remove hy, rfl⟩
  | some e =>
    by_cases h1 : s ≥ e
    · simp only [Queue.remove, if_pos h1]
      exact ⟨fun y hy => hy, trivial⟩
    · by_cases h2 : s ≥ (q.tracks.length : Int)
      · simp only [Queue.remove, if_neg h1, if_pos h2]
        exact ⟨fun y hy => hy, trivial⟩
      · simp only [Queue.remove, if_neg h1, if_neg h2]
        exact ⟨fun y hy => mem_of_mem_jsSplice_remove hy, trivial⟩

/-- Every queue reached by a run of `add`/`remove` calls whose supplied
tracks are pairwise distinct and fresh satisfies the C5 invariant. -/
theorem runQOpsFrom_inv {α : Type} (ops : List (QOp α)) (q : Queue α)
    (hq : QInv q)
    (hnd : (addedTracks ops).Nodup)
    (hT : ∀ y ∈ addedTracks ops, y ∉ q.tracks)
    (hC : ∀ y ∈ addedTracks ops, ∀ c, q.current = some c → y ≠ c) :
    QInv (runQOpsFrom q ops) := by
  induction ops generalizing q with
  | nil => exact hq
  | cons op rest ih =>
    have hrun : runQOpsFrom q (op :: rest) = runQOpsFrom (applyQOp q op) rest := rfl
    rw [hrun]
    cases op with
    | add t off =>
      have hsplit : addedTracks (QOp.add t off :: rest) = addInput t ++ addedTracks rest := by
        simp [addedTracks, QOp.added]
      rw [hsplit] at hnd hT hC
      obtain ⟨hnd1, hnd2, hdisj⟩ := List.nodup_append.mp hnd
      have hT1 : ∀ y ∈ addInput t, y ∉ q.tracks :=
        fun y hy => hT y (List.mem_append_left _ hy)
      have hC1 : ∀ y ∈ addInput t, ∀ c, q.current = some c → y ≠ c :=
        fun y hy => hC y (List.mem_append_left _ hy)
      obtain ⟨hinv2, htr, hcur⟩ := add_step q t off hq hnd1 hT1 hC1
      refine ih (applyQOp q (QOp.add t off)) hinv2 hnd2 ?_ ?_
      · intro y hy hmem
        rcases htr y hmem with h | h
        · exact hT y (List.mem_append_right _ hy) h
        · exact hdisj h hy
      · intro y hy c h1
        rcases hcur c h1 with h | h
        · exact hC y (List.mem_append_right _ hy) c h
        · intro hyc
          exact hdisj (hyc ▸ h) hy
    | removeAt p =>
      have hsplit : addedTracks (QOp.removeAt p :: rest) = addedTracks rest := by
        simp [addedTracks, QOp.added]
      rw [hsplit] at hnd hT hC
      obtain ⟨hsub, hcur⟩ := remove_step q p none
      refine ih (applyQOp q (QOp.removeAt p)) ?_ hnd ?_ ?_
      · intro c h1 hmem
        exact hq c (hcur ▸ h1) (hsub c hmem)
      · exact fun y hy hmem => hT y hy (hsub y hmem)
      · exact fun y hy c h1 => hC y hy c (hcur ▸ h1)
    | removeRange s e =>
      have hsplit : addedTracks (QOp.removeRange s e :: rest) = addedTracks rest := by
        simp [addedTracks, QOp.added]
      rw [hsplit] at hnd hT hC
      obtain ⟨hsub, hcur⟩ := remove_step q s (some e)
      refine ih (applyQOp q (QOp.removeRange s e)) ?_ hnd ?_ ?_
      · intro c h1 hmem
        exact hq c (hcur ▸ h1) (hsub c hmem)
      · exact fun y hy hmem => hT y hy (hsub y hmem)
      · exact fun y hy c h1 => hC y hy c (hcur ▸ h1)

/-- Counterexample to claim C5: the same track added through two `add` calls
puts the `current` track into the sequence.  Starting from the empty queue,
`add(X); add(X)` for the same track `X` leaves `current = X` and the
sequence `[X]`, so the sequence contains the current track. -/
theorem c5_duplicate_add_counterexample :
    (runQOps [QOp.add (Sum.inl (0 : Nat)) none, QOp.add (Sum.inl 0) none]).current = some 0 ∧
    0 ∈ (runQOps [QOp.add (Sum.inl (0 : Nat)) none, QOp.add (Sum.inl 0) none]).tracks := by
  decide

/-- Claim C5 as amended: for every sequence of `Queue.add` and
`Queue.remove` calls starting from an empty queue, provided the tracks
supplied across all `add` calls are pairwise distinct, the sequence never
contains the track held in `current`; and unconditionally `totalSize`
equals the sequence length plus one exactly when `current` is non-null. -/
theorem c5_amended_queue_invariant {α : Type} (ops : List (QOp α))
    (hnd : (addedTracks ops).Nodup) :
    (∀ c, (runQOps ops).current = some c → c ∉ (runQOps ops).tracks) ∧
    Queue.totalSize (runQOps ops) =
      Queue.size (runQOps ops) + (if (runQOps ops).current.isSome then 1 else 0) := by
  constructor
  · exact runQOpsFrom_inv ops (emptyQueue α)
      (fun c h => by simp [emptyQueue] at h) hnd
      (fun y hy => by simp [emptyQueue])
      (fun y hy c h => by simp [emptyQueue] at h)
  · rfl

/-- Witness for the amended C5 at a concrete operation sequence. -/
theorem c5_amended_witness :
    (addedTracks
      [QOp.add (Sum.inl (0 : Nat)) none, QOp.add (Sum.inr [1, 2]) (some 0),
       QOp.removeAt 0]).Nodup ∧
    ((∀ c, (runQOps
        [QOp.add (Sum.inl (0 : Nat)) none, QOp.add (Sum.inr [1, 2]) (some 0),
         QOp.removeAt 0]).current = some c →
      c ∉ (runQOps
        [QOp.add (Sum.inl (0 : Nat)) none, QOp.add (Sum.inr [1, 2]) (some 0),
         QOp.removeAt 0]).tracks) ∧
    Queue.totalSize (runQOps
        [QOp.add (Sum.inl (0 : Nat)) none, QOp.add (Sum.inr [1, 2]) (some 0),
         QOp.removeAt 0]) =
      Queue.size (runQOps
        [QOp.add (Sum.inl (0 : Nat)) none, QOp.add (Sum.inr [1, 2]) (some 0),
         QOp.removeAt 0]) +
      (if (runQOps
        [QOp.add (Sum.inl (0 : Nat)) none, QOp.add (Sum.inr [1, 2]) (some 0),
         QOp.removeAt 0]).current.isSome then 1 else 0)) :=
  ⟨by decide, c5_amended_queue_invariant _ (by decide)⟩

/-! Supporting lemmas for shuffle and unshuffle (C9). -/

/-- Replacing the element at a position of a list and re-consing the old
value permutes consing the new value. -/
theorem cons_set_perm {α : Type} (xs : List α) (m : Nat) (b x : α)
    (h : xs[m]? = some b) : (b :: xs.set m x).Perm (x :: xs) := by
  induction xs generalizing m with
  | nil => simp at h
  | cons y ys ih =>
    cases m with
    | zero =>
      simp only [List.getElem?_cons_zero, Option.some.injEq] at h
      subst h
      simp only [List.set_cons_zero]
      exact List.Perm.swap x y ys
    | succ k =>
      simp only [List.getElem?_cons_succ] at h
      simp only [List.set_cons_succ]
      exact ((List.Perm.swap y b (ys.set k x)).trans ((ih k h).cons y)).trans
        (List.Perm.swap x y ys)

/-- Writing the two read values back crosswise permutes the list. -/
theorem set_set_perm {α : Type} (l : List α) (i j : Nat) (a b : α)
    (hi : l[i]? = some a) (hj : l[j]? = some b) : ((l.set i b).set j a).Perm l := by
  induction l generalizing i j with
  | nil => simp at hi
  | cons y ys ih =>
    cases i with
    | zero =>
      simp only [List.getElem?_cons_zero, Option.some.injEq] at hi
      subst hi
      cases j with
      | zero =>
        simp only [List.getElem?_cons_zero, Option.some.injEq] at hj
        subst hj
        simp only [List.set_cons_zero]
        exact List.Perm.refl _
      | succ k =>
        simp only [List.getElem?_cons_succ] at hj
        simp only [List.set_cons_zero, List.set_cons_succ]
        exact cons_set_perm ys k b y hj
    | succ m =>
      simp only [List.getElem?_cons_succ] at hi
      cases j with
      | zero =>
        simp only [List.getElem?_cons_zero, Option.some.injEq] at hj
        subst hj
        simp only [List.set_cons_succ, List.set_cons_zero]
        exact cons_set_perm ys m a y hi
      | succ k =>
        simp only [List.getElem?_cons_succ] at hj
        simp only [List.set_cons_succ]
        exact (ih m k hi hj).cons y

/-- One swap step of the shuffle loop permutes the list. -/
theorem listSwap_perm {α : Type} (l : List α) (i j : Nat) : (listSwap l i j).Perm l := by
  rcases hi : l[i]? with _ | a
  · simp [listSwap, hi]
  · rcases hj : l[j]? with _ | b
    · simp [listSwap, hi, hj]
    · simpa [listSwap, hi, hj] using set_set_perm l i j a b hi hj

/-- The whole shuffle loop permutes the list. -/
theorem shuffleAux_perm {α : Type} (rand : Nat → Nat) (n : Nat) (l : List α) :
    (shuffleAux rand l n).Perm l := by
  induction n generalizing l with
  | zero => exact List.Perm.refl l
  | succ i ih =>
    exact (ih _).trans (listSwap_perm l (i + 1) _)

/-- Method `Queue.shuffle` permutes the sequence for every draw of random
indices. -/
theorem shuffle_perm {α : Type} (rand : Nat → Nat) (l : List α) :
    (Queue.shuffle rand l).Perm l :=
  shuffleAux_perm rand (l.length - 1) l

/-- The unshuffle comparator is total. -/
theorem unshuffleLe_total (a b : STrack) : (unshuffleLe a b || unshuffleLe b a) = true := by
  unfold unshuffleLe
  by_cases h : a.buildedAt = b.buildedAt
  · rw [if_pos h, if_pos h.symm]
    rcases le_total a.idOrTitle b.idOrTitle with h2 | h2 <;> simp [h2]
  · rw [if_neg h, if_neg (Ne.symm h)]
    rcases Nat.lt_trichotomy a.buildedAt b.buildedAt with h2 | h2 | h2
    · simp [h2]
    · exact (h h2).elim
    · simp [h2]

/-- The unshuffle comparator is transitive. -/
theorem unshuffleLe_trans (a b c : STrack) (h1 : unshuffleLe a b = true)
    (h2 : unshuffleLe b c = true) : unshuffleLe a c = true := by
  unfold unshuffleLe at h1 h2 ⊢
  by_cases hab : a.buildedAt = b.buildedAt
  · by_cases hbc : b.buildedAt = c.buildedAt
    · rw [if_pos hab] at h1
      rw [if_pos hbc] at h2
      rw [if_pos (hab.trans hbc)]
      simp only [decide_eq_true_eq] at h1 h2 ⊢
      exact le_trans h1 h2
    · rw [if_neg hbc] at h2
      simp only [decide_eq_true_eq] at h2
      have hlt : a.buildedAt < c.buildedAt := by rw [hab]; exact h2
      rw [if_neg (Nat.ne_of_lt hlt)]
      simp [hlt]
  · rw [if_neg hab] at h1
    simp only [decide_eq_true_eq] at h1
    by_cases hbc : b.buildedAt = c.buildedAt
    · have hlt : a.buildedAt < c.buildedAt := by rw [← hbc]; exact h1
      rw [if_neg (Nat.ne_of_lt hlt)]
      simp [hlt]
    · rw [if_neg hbc] at h2
      simp only [decide_eq_true_eq] at h2
      have hlt := Nat.lt_trans h1 h2
      rw [if_neg (Nat.ne_of_lt hlt)]
      simp [hlt]

/-- Strict ascending order on creation timestamps: the order claim C9 says
unshuffling restores. -/
def keyLt (a b : STrack) : Prop := a.buildedAt < b.buildedAt

instance : IsAntisymm STrack keyLt :=
  ⟨fun _ _ h1 h2 => ((Nat.lt_asymm h1) h2).elim⟩

instance : DecidableRel keyLt :=
  fun a b => Nat.decLt a.buildedAt b.buildedAt

/-- On a queue with pairwise-distinct creation timestamps, unshuffle sorts
strictly ascending by timestamp. -/
theorem unshuffle_sorted_of_distinct (l : List STrack)
    (hd : l.Pairwise (fun a b => a.buildedAt ≠ b.buildedAt)) :
    List.Sorted keyLt (Queue.unshuffle l) := by
  have hs : (l.mergeSort unshuffleLe).Pairwise (fun a b => unshuffleLe a b = true) :=
    List.sorted_mergeSort unshuffleLe_trans unshuffleLe_total l
  have hd2 : (l.mergeSort unshuffleLe).Pairwise (fun a b => a.buildedAt ≠ b.buildedAt) :=
    ((List.mergeSort_perm l unshuffleLe).pairwise_iff (fun h => Ne.symm h)).mpr hd
  refine (hs.and hd2).imp ?_
  rintro a b ⟨hle, hne⟩
  unfold unshuffleLe at hle
  rw [if_neg hne] at hle
  exact of_decide_eq_true hle

/-- With pairwise-distinct timestamps the sorted result is unique: any two
permuted inputs unshuffle to the same list. -/
theorem unshuffle_eq_of_perm (l1 l2 : List STrack)
    (hd : l1.Pairwise (fun a b => a.buildedAt ≠ b.buildedAt))
    (hp : l1.Perm l2) :
    Queue.unshuffle l1 = Queue.unshuffle l2 := by
  have hd2 : l2.Pairwise (fun a b => a.buildedAt ≠ b.buildedAt) :=
    (hp.pairwise_iff (fun h => Ne.symm h)).mp hd
  have hperm : (Queue.unshuffle l1).Perm (Queue.unshuffle l2) :=
    ((List.mergeSort_perm l1 _).trans hp).trans (List.mergeSort_perm l2 _).symm
  exact List.eq_of_perm_of_sorted hperm
    (unshuffle_sorted_of_distinct l1 hd) (unshuffle_sorted_of_distinct l2 hd2)

/-- Unshuffle is idempotent on queues with pairwise-distinct timestamps. -/
theorem unshuffle_idem (l : List STrack)
    (hd : l.Pairwise (fun a b => a.buildedAt ≠ b.buildedAt)) :
    Queue.unshuffle (Queue.unshuffle l) = Queue.unshuffle l := by
  have hd2 : (Queue.unshuffle l).Pairwise (fun a b => a.buildedAt ≠ b.buildedAt) :=
    ((List.mergeSort_perm l unshuffleLe).pairwise_iff (fun h => Ne.symm h)).mpr hd
  exact List.eq_of_perm_of_sorted (List.mergeSort_perm _ _)
    (unshuffle_sorted_of_distinct _ hd2) (unshuffle_sorted_of_distinct l hd)

/-- Claim C9: for a queue whose tracks have pairwise-distinct creation
timestamps, `unshuffle()` after `shuffle()` — and indeed after any
permutation of the sequence — restores one and the same order, strictly
ascending by creation timestamp and a permutation of the original tracks;
and `unshuffle()` is idempotent. -/
theorem c9_unshuffle_restores_order (l lperm : List STrack) (rand : Nat → Nat)
    (hd : l.Pairwise (fun a b => a.buildedAt ≠ b.buildedAt))
    (hp : lperm.Perm l) :
    Queue.unshuffle (Queue.shuffle rand l) = Queue.unshuffle l ∧
    Queue.unshuffle lperm = Queue.unshuffle l ∧
    List.Sorted keyLt (Queue.unshuffle l) ∧
    (Queue.unshuffle l).Perm l ∧
    Queue.unshuffle (Queue.unshuffle lperm) = Queue.unshuffle lperm := by
  have hdp : lperm.Pairwise (fun a b => a.buildedAt ≠ b.buildedAt) :=
    (hp.pairwise_iff (fun h => Ne.symm h)).mpr hd
  refine ⟨?_, ?_, ?_, ?_, ?_⟩
  · exact (unshuffle_eq_of_perm l (Queue.shuffle rand l) hd (shuffle_perm rand l).symm).symm
  · exact unshuffle_eq_of_perm lperm l hdp hp
  · exact unshuffle_sorted_of_distinct l hd
  · exact List.mergeSort_perm l unshuffleLe
  · exact unshuffle_idem lperm hdp

/-- Witness for C9 at a concrete two-track queue, its reversal, and a fixed
random draw. -/
theorem c9_unshuffle_witness :
    Queue.unshuffle (Queue.shuffle (fun _ => 0)
        [STrack.mk 2 "b" "B", STrack.mk 1 "a" "A"]) =
      Queue.unshuffle [STrack.mk 2 "b" "B", STrack.mk 1 "a" "A"] ∧
    Queue.unshuffle [STrack.mk 1 "a" "A", STrack.mk 2 "b" "B"] =
      Queue.unshuffle [STrack.mk 2 "b" "B", STrack.mk 1 "a" "A"] ∧
    List.Sorted keyLt (Queue.unshuffle [STrack.mk 2 "b" "B", STrack.mk 1 "a" "A"]) ∧
    (Queue.unshuffle [STrack.mk 2 "b" "B", STrack.mk 1 "a" "A"]).Perm
      [STrack.mk 2 "b" "B", STrack.mk 1 "a" "A"] ∧
    Queue.unshuffle (Queue.unshuffle [STrack.mk 1 "a" "A", STrack.mk 2 "b" "B"]) =
      Queue.unshuffle [STrack.mk 1 "a" "A", STrack.mk 2 "b" "B"] :=
  c9_unshuffle_restores_order
    [STrack.mk 2 "b" "B", STrack.mk 1 "a" "A"]
    [STrack.mk 1 "a" "A", STrack.mk 2 "b" "B"]
    (fun _ => 0) (by decide) (by decide)

end Erela
